import Mathlib

/-!
Verification of the windowing / feature-extraction core of the `digihealth`
package (`metrics.py` and `transforms.py`).

The Python code is shallowly embedded over `List ℚ` (numeric arrays),
`List ℤ` (label arrays) and `Option` (a `none` result models a Python
exception escaping the function).  NumPy float semantics that matter to the
claims (NaN produced by `0/0`, infinities produced by `x/0`, `np.nanmean`
skipping NaN but not infinities) are modelled explicitly by the `NumVal`
type.  The natural logarithm, a transcendental external library call, is a
parameter of the entropy embedding.
-/

namespace DigiHealth

/-! ### Basic list helpers shared by several functions -/

/-- Successive differences of a list, `np.diff`: `diffs [a, b, c] = [b - a, c - b]`. -/
def diffs : List ℚ → List ℚ
  | a :: b :: rest => (b - a) :: diffs (b :: rest)
  | _ => []

/-- The list of consecutive pairs of a list: element `i` is `(l[i], l[i+1])`.
Used to embed Python loops running `for idx in range(1, len(l))` over
`(l[idx-1], l[idx])`. -/
def consecPairs (l : List α) : List (α × α) := l.zip l.tail

/-! ### `Metrics.establish_sampling_frequency` (metrics.py lines 148-160)

The Python loop accumulates only the successive deltas strictly below the
hard-coded outlier threshold `100`, divides the sum by the *total* number of
timestamps, and inverts.  Dividing by `len(timestamps)` when the list is
empty, or inverting a zero mean (`1 / 0.0`), raises `ZeroDivisionError` in
Python; both paths are modelled by `none`. -/

/-- Sum of the successive timestamp deltas that are strictly smaller than the
outlier threshold 100 (the accumulation loop of
`establish_sampling_frequency`). -/
def smallDeltaSum (timestamps : List ℚ) : ℚ :=
  ((diffs timestamps).filter (fun d => decide (d < 100))).sum

/-- Embedding of `Metrics.establish_sampling_frequency`.  `none` models a
`ZeroDivisionError` (empty input, or zero accumulated delta sum). -/
def establish_sampling_frequency (timestamps : List ℚ) : Option ℚ :=
  if timestamps.length = 0 then none
  else
    let mean := smallDeltaSum timestamps / (timestamps.length : ℚ)
    if mean = 0 then none
    else some (1 / mean)

/-! ### Window-length derivation in `Metrics.__init__` (metrics.py lines 7-27) -/

/-- Python `x % 2 == 0` on a float: true exactly when the value is an even
integer. -/
def pyEvenMod2 (q : ℚ) : Bool := q.den == 1 && q.num % 2 == 0

/-- Embedding of the window-length computation of `Metrics.__init__`:
`indexing = aggregation_duration / np.floor(sampling_frequency)`, rounded up
when not evenly divisible by 2, then cast to `int`.  When
`np.floor(sampling_frequency) = 0` the division produces `inf`/`nan` and the
final `int(...)` raises (`OverflowError`/`ValueError`); that path, like a
failing frequency estimate, is modelled by `none`. -/
def metricsWindowLength (timestamps : List ℚ) (aggregation_duration : ℚ) : Option ℤ :=
  match establish_sampling_frequency timestamps with
  | none => none
  | some f =>
      if ⌊f⌋ = 0 then none
      else
        let indexing := aggregation_duration / ((⌊f⌋ : ℤ) : ℚ)
        if pyEvenMod2 indexing then some indexing.num else some ⌈indexing⌉

/-! ### Claims C6 and C7 -/

/-- Claim C6: for every timestamp sequence, the sampling-frequency estimator
returns the reciprocal of (the sum of all successive timestamp deltas
strictly smaller than 100 time-units, divided by the total number of
timestamps in the sequence, not the filtered delta count).  Stated on the
sequences where a reciprocal exists at all: the sequence is non-empty and
the accumulated delta sum is non-zero. -/
theorem sampling_frequency_formula (timestamps : List ℚ)
    (hne : timestamps ≠ []) (hs : smallDeltaSum timestamps ≠ 0) :
    establish_sampling_frequency timestamps
      = some (1 / (smallDeltaSum timestamps / (timestamps.length : ℚ))) := by
  have hlen : timestamps.length ≠ 0 := by
    exact fun h => hne (List.length_eq_zero.mp h)
  have hlenq : (timestamps.length : ℚ) ≠ 0 := by exact_mod_cast hlen
  have hmean : smallDeltaSum timestamps / (timestamps.length : ℚ) ≠ 0 :=
    div_ne_zero hs hlenq
  simp [establish_sampling_frequency, hlen, hmean]

/-- Witness for C6 on `[0, 1, 3]`: both deltas are below the threshold, their
sum is 3, the mean is 1, and the estimator returns `1/1 = 1`. -/
theorem sampling_frequency_formula_witness :
    establish_sampling_frequency [0, 1, 3]
      = some (1 / (smallDeltaSum [0, 1, 3] / (([0, 1, 3] : List ℚ).length : ℚ))) := by
  exact sampling_frequency_formula [0, 1, 3] (by simp)
    (by norm_num [smallDeltaSum, diffs])

/-- Counterexample to claim C7: on the timestamp sequence `[0, 200]` every
successive delta is at least 100, and the estimator does not return the
frequency 0 — the Python code raises `ZeroDivisionError` at `1 / 0.0`
(modelled by `none`). -/
theorem sampling_frequency_all_large_counterexample :
    establish_sampling_frequency [0, 200] = none
      ∧ establish_sampling_frequency [0, 200] ≠ some 0 := by
  constructor
  · norm_num [establish_sampling_frequency, smallDeltaSum, diffs]
  · norm_num [establish_sampling_frequency, smallDeltaSum, diffs]
    intro h
    exact Option.noConfusion h

/-- Claim C7 amended: for every non-empty timestamp sequence in which every
successive delta is at least the 100 time-unit threshold, the accumulated
delta sum is 0 and the estimator raises `ZeroDivisionError` when inverting
the zero mean delta (modelled by `none`); no frequency — in particular not
0 — is returned. -/
theorem sampling_frequency_all_large_raises (timestamps : List ℚ)
    (hne : timestamps ≠ []) (hbig : ∀ d ∈ diffs timestamps, (100 : ℚ) ≤ d) :
    establish_sampling_frequency timestamps = none := by
  have hlen : timestamps.length ≠ 0 := by
    exact fun h => hne (List.length_eq_zero.mp h)
  have hfilter : (diffs timestamps).filter (fun d => decide (d < 100)) = [] := by
    refine List.filter_eq_nil_iff.mpr ?_
    intro d hd
    simpa using not_lt.mpr (hbig d hd)
  have hs : smallDeltaSum timestamps = 0 := by
    simp [smallDeltaSum, hfilter]
  simp [establish_sampling_frequency, hlen, hs]

/-- Witness for the amended C7 at the concrete input `[0, 200]`. -/
theorem sampling_frequency_all_large_witness :
    establish_sampling_frequency [0, 200] = none := by
  exact sampling_frequency_all_large_raises [0, 200] (by simp)
    (by norm_num [diffs])

/-! ### Claim C8: window-length derivation -/

/-- The Python float test `x % 2 == 0` holds exactly when `x` is an even
integer. -/
theorem pyEvenMod2_iff (q : ℚ) : pyEvenMod2 q = true ↔ q.den = 1 ∧ 2 ∣ q.num := by
  simp only [pyEvenMod2, Bool.and_eq_true, beq_iff_eq]
  rw [Int.dvd_iff_emod_eq_zero]

/-- Counterexample to claim C8: the timestamp sequence `[0, 2, 4]` has
estimated sampling frequency `3/4`, which is strictly positive, yet
`Metrics.__init__` derives no window length at all: `np.floor(3/4) = 0`, the
division by zero produces `inf`, and the final `int(...)` raises
`OverflowError` (modelled by `none`), instead of producing the ceiling the
claim describes. -/
theorem window_length_fractional_frequency_counterexample :
    establish_sampling_frequency [0, 2, 4] = some (3 / 4)
      ∧ (0 : ℚ) < 3 / 4
      ∧ metricsWindowLength [0, 2, 4] 10 = none := by
  have hf : establish_sampling_frequency [0, 2, 4] = some (3 / 4) := by
    norm_num [establish_sampling_frequency, smallDeltaSum, diffs]
  refine ⟨hf, by norm_num, ?_⟩
  have hfl : ⌊(3 / 4 : ℚ)⌋ = 0 :=
    Int.floor_eq_zero_iff.mpr (by constructor <;> norm_num)
  simp [metricsWindowLength, hf, hfl]

/-- Claim C8 amended: the claim's formula holds once the estimated sampling
frequency is at least 1 (so that `np.floor(sampling_frequency)` is a
non-zero integer; a frequency strictly between 0 and 1 makes the code
divide by zero and raise).  For every aggregation duration `d`, the derived
window length is the ceiling of `d / ⌊f⌋` when that quotient is not an even
integer (Python's `% 2 != 0` test), and the quotient itself (an exact
integer cast) otherwise. -/
theorem window_length_derivation (timestamps : List ℚ) (d f : ℚ)
    (hf : establish_sampling_frequency timestamps = some f) (h1 : 1 ≤ f) :
    metricsWindowLength timestamps d
      = some (if (d / ((⌊f⌋ : ℤ) : ℚ)).den = 1 ∧ 2 ∣ (d / ((⌊f⌋ : ℤ) : ℚ)).num
              then ⌊d / ((⌊f⌋ : ℤ) : ℚ)⌋ else ⌈d / ((⌊f⌋ : ℤ) : ℚ)⌉) := by
  have hfl : (1 : ℤ) ≤ ⌊f⌋ := Int.le_floor.mpr (by exact_mod_cast h1)
  have hfl0 : ⌊f⌋ ≠ 0 := by omega
  simp only [metricsWindowLength, hf, if_neg hfl0]
  by_cases h : pyEvenMod2 (d / ((⌊f⌋ : ℤ) : ℚ)) = true
  · obtain ⟨hden, hdvd⟩ := (pyEvenMod2_iff _).mp h
    have hnum : ((d / ((⌊f⌋ : ℤ) : ℚ)).num : ℚ) = d / ((⌊f⌋ : ℤ) : ℚ) :=
      Rat.coe_int_num_of_den_eq_one hden
    have hfloor : ⌊d / ((⌊f⌋ : ℤ) : ℚ)⌋ = (d / ((⌊f⌋ : ℤ) : ℚ)).num := by
      conv_lhs => rw [← hnum]
      exact Int.floor_intCast _
    rw [if_pos h, if_pos ⟨hden, hdvd⟩, hfloor]
  · have hnot : ¬((d / ((⌊f⌋ : ℤ) : ℚ)).den = 1 ∧ 2 ∣ (d / ((⌊f⌋ : ℤ) : ℚ)).num) :=
      fun hc => h ((pyEvenMod2_iff _).mpr hc)
    rw [if_neg h, if_neg hnot]

/-- Witness for the amended C8 at timestamps `[0, 1, 2]` (estimated
frequency `3/2 ≥ 1`) and aggregation duration 5. -/
theorem window_length_derivation_witness :
    metricsWindowLength [0, 1, 2] 5
      = some (if ((5 : ℚ) / ((⌊(3 / 2 : ℚ)⌋ : ℤ) : ℚ)).den = 1
                  ∧ 2 ∣ ((5 : ℚ) / ((⌊(3 / 2 : ℚ)⌋ : ℤ) : ℚ)).num
              then ⌊(5 : ℚ) / ((⌊(3 / 2 : ℚ)⌋ : ℤ) : ℚ)⌋
              else ⌈(5 : ℚ) / ((⌊(3 / 2 : ℚ)⌋ : ℤ) : ℚ)⌉) := by
  exact window_length_derivation [0, 1, 2] 5 (3 / 2)
    (by norm_num [establish_sampling_frequency, smallDeltaSum, diffs]) (by norm_num)

/-! ### The window slider (`Metrics.slide`, metrics.py lines 162-172, and the
identical `Transforms.slide`, transforms.py lines 202-221)

The mutable cursor state is made explicit: `slide` returns the window
together with the successor state.  Backing sequences are lists of
`Option ℚ`, where `none` models a NaN entry that the slicing code strips
(`window[~np.isnan(window)]`; filtering an empty slice is the identity, so
the `len(window) > 0` guard of the source needs no separate branch).
Python slice semantics — negative start indices wrapping around the end of
the sequence, out-of-range bounds clamped, never an error — are embedded by
`pyResolveIdx`/`pySlice`. -/

/-- Cursor state of a slider: the fields set by `Metrics.__init__` /
`Transforms.__init__` (`current_position` starts at 0). -/
structure Slider where
  window_length : ℕ
  current_position : ℕ
  window_overlap : ℕ
deriving DecidableEq, Repr

/-- Resolve one (possibly negative) Python slice bound against a sequence of
length `n`: negative indices count from the end and everything is clamped
into `[0, n]`. -/
def pyResolveIdx (n : ℕ) (i : ℤ) : ℕ :=
  if i < 0 then (i + n).toNat else min i.toNat n

/-- Python list/array slicing `xs[start:stop]` with integer bounds. -/
def pySlice (xs : List α) (start stop : ℤ) : List α :=
  (xs.take (pyResolveIdx xs.length stop)).drop (pyResolveIdx xs.length start)

/-- Embedding of `slide`: take the backward-looking slice
`x[current_position - window_length : current_position]`, strip NaN
(`none`) entries, and advance the cursor by `window_overlap` only when
`update` is true.  Returns the window and the successor state. -/
def slide (s : Slider) (x : List (Option ℚ)) (update : Bool) : List ℚ × Slider :=
  let window := pySlice x ((s.current_position : ℤ) - (s.window_length : ℤ))
    (s.current_position : ℤ)
  (window.filterMap id,
    if update then { s with current_position := s.current_position + s.window_overlap }
    else s)

/-- The state after `k` successive `slide(update=True)` calls. -/
def slideIter (s : Slider) (x : List (Option ℚ)) : ℕ → Slider
  | 0 => s
  | k + 1 => (slide (slideIter s x k) x true).2

/-! ### Claim C3 -/

/-- Counterexample to claim C3: a slider with `window_length = 2` at
`current_position = 1` (so `current_position < window_length`) over the
one-element backing sequence `[5]` returns the non-empty window `[5]`, not
an empty window: the Python slice `x[1-2:1] = x[-1:1]` wraps the negative
start index around the short sequence. -/
theorem slide_short_sequence_nonempty :
    (slide ⟨2, 1, 1⟩ [some 5] true).1 = [5]
      ∧ (slide ⟨2, 1, 1⟩ [some 5] true).1 ≠ [] := by
  constructor
  · simp [slide, pySlice, pyResolveIdx]
  · simp [slide, pySlice, pyResolveIdx]

/-- Claim C3 amended: `slide` raises no error, and it returns an empty
window whenever `current_position < window_length`, *provided* the backing
sequence is at least `window_length` long; on a shorter non-empty backing
sequence with `0 < current_position`, Python's negative-index wraparound
returns a (truncated) non-empty window instead. -/
theorem slide_empty_of_position_lt_length (s : Slider) (x : List (Option ℚ))
    (u : Bool) (hpos : s.current_position < s.window_length)
    (hlen : s.window_length ≤ x.length) :
    (slide s x u).1 = [] := by
  have hstart : ((s.current_position : ℤ) - (s.window_length : ℤ)) < 0 := by
    omega
  have hres : pyResolveIdx x.length ((s.current_position : ℤ) - (s.window_length : ℤ))
      = ((s.current_position : ℤ) - (s.window_length : ℤ) + (x.length : ℤ)).toNat := by
    simp [pyResolveIdx, hstart]
  have hstop : pyResolveIdx x.length (s.current_position : ℤ) = s.current_position := by
    unfold pyResolveIdx
    rw [if_neg (by omega : ¬((s.current_position : ℤ) < 0))]
    rw [Int.toNat_natCast]
    omega
  have hdrop : s.current_position
      ≤ ((s.current_position : ℤ) - (s.window_length : ℤ) + (x.length : ℤ)).toNat := by
    omega
  have hempty : (x.take s.current_position).drop
      (((s.current_position : ℤ) - (s.window_length : ℤ) + (x.length : ℤ)).toNat) = [] := by
    apply List.drop_eq_nil_of_le
    calc (x.take s.current_position).length ≤ s.current_position := by
          simp [List.length_take]
      _ ≤ _ := hdrop
  simp [slide, pySlice, hres, hstop, hempty]

/-- Witness for the amended C3: `window_length = 3`, `current_position = 1`,
backing sequence of length 4. -/
theorem slide_empty_witness :
    (slide ⟨3, 1, 2⟩ [some 1, some 2, none, some 4] true).1 = [] := by
  exact slide_empty_of_position_lt_length ⟨3, 1, 2⟩ [some 1, some 2, none, some 4]
    true (by norm_num) (by norm_num)

/-! ### Claim C9 -/

/-- Claim C9: for a slider with overlap at most the window length, every
`slide(update=True)` call computes its window from the pre-advance position
(the same window `update=False` would return), then advances
`current_position` by exactly `window_overlap`, leaving `window_length` and
`window_overlap` unchanged; consequently `current_position` is monotonically
non-decreasing across repeated `slide(update=True)` calls. -/
theorem slide_update_advances_by_overlap (s : Slider) (x : List (Option ℚ))
    (_hol : s.window_overlap ≤ s.window_length) :
    (slide s x true).2.current_position = s.current_position + s.window_overlap
      ∧ (slide s x true).1 = (slide s x false).1
      ∧ (slide s x true).2.window_length = s.window_length
      ∧ (slide s x true).2.window_overlap = s.window_overlap
      ∧ ∀ k : ℕ, (slideIter s x k).current_position
          ≤ (slideIter s x (k + 1)).current_position := by
  refine ⟨rfl, rfl, rfl, rfl, fun k => ?_⟩
  exact Nat.le_add_right _ _

/-- Witness for C9: a slider with `window_length = 3`, `window_overlap = 2`
advances its cursor from 0 to 2. -/
theorem slide_update_advances_witness :
    (slide ⟨3, 0, 2⟩ [] true).2.current_position = 0 + 2 :=
  (slide_update_advances_by_overlap ⟨3, 0, 2⟩ [] (by norm_num)).1

/-! ### Claim C10 -/

/-- Claim C10: `slide` with `update=False` leaves the whole slider state —
`current_position`, `window_length` and `window_overlap` — unchanged, and a
repeated peek from the resulting state returns the very same window:
peeking is idempotent and side-effect free. -/
theorem slide_peek_pure (s : Slider) (x : List (Option ℚ)) :
    (slide s x false).2 = s
      ∧ slide ((slide s x false).2) x false = slide s x false := by
  exact ⟨rfl, rfl⟩

/-! ### `Transforms.zero_crossings` and `Transforms.mean_crossings`
(transforms.py lines 28-61)

`zero_crossings` reads `x[0]` before its loop; on an empty window that
subscript raises `IndexError`, modelled by `none`.  `mean_crossings`
centres the window on its mean (`np.mean` of an empty array is NaN, and
subtracting it from an empty array leaves an empty array) and then calls
`zero_crossings`, so it raises on an empty window too. -/

/-- The counting loop of `zero_crossings`: `dir` is the running direction
(1 for non-negative, 0 for negative), flipped via `sign = [1, 0]` each time
a crossing is counted. -/
def zcLoop : List ℚ → ℕ → ℕ → ℕ
  | [], _, count => count
  | a :: rest, dir, count =>
    if (0 ≤ a ∧ dir = 0) ∨ (a < 0 ∧ dir = 1) then zcLoop rest (1 - dir) (count + 1)
    else zcLoop rest dir count

/-- Embedding of `Transforms.zero_crossings`; `none` models the
`IndexError` raised by `x[0]` on an empty window. -/
def zero_crossings (x : List ℚ) : Option ℕ :=
  match x with
  | [] => none
  | x0 :: _ => some (zcLoop x (if 0 ≤ x0 then 1 else 0) 0)

/-- Embedding of `Transforms.mean_crossings`: `zero_crossings` of the
mean-centred window (on the empty window the centred window is still empty,
so `zero_crossings` raises, exactly as in the source). -/
def mean_crossings (x : List ℚ) : Option ℕ :=
  zero_crossings (x.map (fun a => a - x.sum / (x.length : ℚ)))

/-! ### Claim C4 -/

/-- Counterexample to claim C4: on an empty window `zero_crossings` (and
hence `mean_crossings`) raises `IndexError` at the unconditional `x[0]`
read (modelled by `none`); no sentinel value is returned. -/
theorem zero_crossings_empty_raises :
    zero_crossings ([] : List ℚ) = none ∧ mean_crossings ([] : List ℚ) = none := by
  exact ⟨rfl, rfl⟩

/-- Claim C4 amended: `zero_crossings` and `mean_crossings` return a value
without raising on every *non-empty* window, but on the degenerate empty
window both raise `IndexError` instead of returning a sentinel. -/
theorem crossings_defined_on_nonempty (x : List ℚ) (hne : x ≠ []) :
    (zero_crossings x).isSome ∧ (mean_crossings x).isSome := by
  obtain ⟨a, rest, rfl⟩ := List.exists_cons_of_ne_nil hne
  exact ⟨rfl, rfl⟩

/-- Witness for the amended C4 on the window `[1, -1, 1, -1]`. -/
theorem crossings_defined_witness :
    (zero_crossings [1, -1, 1, -1]).isSome ∧ (mean_crossings [1, -1, 1, -1]).isSome := by
  exact crossings_defined_on_nonempty [1, -1, 1, -1] (by simp)

/-! ### NumPy float values: NaN and infinities

`Metrics.speed` divides elementwise with `np.divide` (`0/0 → nan`,
`x/0 → ±inf` for `x ≠ 0`) and aggregates with `np.nanmean`, which skips NaN
entries but *not* infinities.  `NumVal` models exactly the float behaviours
those operations can produce on rational inputs. -/

/-- A NumPy double restricted to what the embedded code can produce: a
rational, an infinity, or NaN. -/
inductive NumVal where
  | nan : NumVal
  | posinf : NumVal
  | neginf : NumVal
  | fin : ℚ → NumVal
deriving DecidableEq, Repr

/-- Is this value NaN? -/
def NumVal.isNan : NumVal → Bool
  | .nan => true
  | _ => false

/-- Is this value `+inf`? -/
def NumVal.isPos : NumVal → Bool
  | .posinf => true
  | _ => false

/-- Is this value `-inf`? -/
def NumVal.isNeg : NumVal → Bool
  | .neginf => true
  | _ => false

/-- The rational payload of a finite value. -/
def NumVal.finPart : NumVal → Option ℚ
  | .fin q => some q
  | _ => none

/-- `np.divide` on two rationals: `0/0` is NaN, `x/0` is a signed infinity,
everything else is exact. -/
def npDivide (a b : ℚ) : NumVal :=
  if b = 0 then (if a = 0 then .nan else if 0 < a then .posinf else .neginf)
  else .fin (a / b)

/-- `np.abs` on a NumPy value. -/
def npAbs : NumVal → NumVal
  | .nan => .nan
  | .posinf => .posinf
  | .neginf => .posinf
  | .fin q => .fin |q|

/-- `np.nanmean`: drop the NaN entries and average the rest (an empty rest
gives NaN; a surviving infinity dominates the sum; opposite infinities give
NaN). -/
def nanmean (l : List NumVal) : NumVal :=
  let vals := l.filter (fun v => !v.isNan)
  if vals.length = 0 then .nan
  else if vals.any NumVal.isPos && vals.any NumVal.isNeg then .nan
  else if vals.any NumVal.isPos then .posinf
  else if vals.any NumVal.isNeg then .neginf
  else .fin ((vals.filterMap NumVal.finPart).sum / (vals.length : ℚ))

/-- `nanmean` ignores a leading NaN entry. -/
theorem nanmean_cons_nan (l : List NumVal) : nanmean (.nan :: l) = nanmean l := rfl

/-- A list of finite NumPy values contains no NaN to filter away. -/
theorem filter_notNan_map_fin (qs : List ℚ) :
    (qs.map NumVal.fin).filter (fun v => !v.isNan) = qs.map NumVal.fin := by
  induction qs with
  | nil => rfl
  | cons a as ih => simp [NumVal.isNan, ih]

/-- A list of finite NumPy values contains no `+inf`. -/
theorem any_isPos_map_fin (qs : List ℚ) : (qs.map NumVal.fin).any NumVal.isPos = false := by
  induction qs with
  | nil => rfl
  | cons a as ih => simp [NumVal.isPos, ih]

/-- A list of finite NumPy values contains no `-inf`. -/
theorem any_isNeg_map_fin (qs : List ℚ) : (qs.map NumVal.fin).any NumVal.isNeg = false := by
  induction qs with
  | nil => rfl
  | cons a as ih => simp [NumVal.isNeg, ih]

/-- Extracting the rational payloads of a list of finite NumPy values gives
the original rationals back. -/
theorem filterMap_finPart_map_fin (qs : List ℚ) :
    (qs.map NumVal.fin).filterMap NumVal.finPart = qs := by
  induction qs with
  | nil => rfl
  | cons a as ih => simpa [NumVal.finPart] using ih

/-- `nanmean` of a non-empty list of finite values is the plain average. -/
theorem nanmean_map_fin (qs : List ℚ) (hne : qs ≠ []) :
    nanmean (qs.map NumVal.fin) = .fin (qs.sum / (qs.length : ℚ)) := by
  rw [nanmean]
  simp only [filter_notNan_map_fin, any_isPos_map_fin, any_isNeg_map_fin,
    filterMap_finPart_map_fin, List.length_map, Bool.false_and, if_false]
  rw [if_neg (by simpa using fun h => hne (List.length_eq_zero.mp h))]
  simp

/-! ### `Metrics.speed` (metrics.py lines 80-98)

`np.unique` returns the sorted distinct label values; the code then maps
each label to its rank in that sorted list (`np.where(unique_lab == lab)`)
to index the adjacency matrix.  The loop fills, for `idx in
range(1, len(labels))`, `label_change_array[idx]` with the adjacency weight
of the pair `(labels[idx-1], labels[idx])` and `label_time_array[idx]` with
`timestamps[idx-1] - timestamps[idx]`; index 0 of both arrays stays 0, so
`distances[0] = 0/0 = nan`.  Finally
`speed = np.abs(np.nanmean(distances))`. -/

/-- Insert a value into a sorted list of integers. -/
def insertSorted (a : ℤ) : List ℤ → List ℤ
  | [] => [a]
  | b :: rest => if a ≤ b then a :: b :: rest else b :: insertSorted a rest

/-- Insertion sort on integers. -/
def sortInts : List ℤ → List ℤ
  | [] => []
  | a :: rest => insertSorted a (sortInts rest)

/-- Collapse runs of equal values in a sorted list. -/
def dedupSorted : List ℤ → List ℤ
  | a :: b :: rest => if a = b then dedupSorted (b :: rest) else a :: dedupSorted (b :: rest)
  | l => l

/-- `np.unique`: the sorted distinct values of a label array. -/
def npUnique (labels : List ℤ) : List ℤ := dedupSorted (sortInts labels)

/-- The adjacency weight looked up by `speed` for one consecutive label
pair: row and column are the ranks of the two labels in the sorted unique
labels of the window. -/
def adjWeight (labels : List ℤ) (adj : List (List ℚ)) (prev cur : ℤ) : ℚ :=
  (adj.getD ((npUnique labels).indexOf prev) []).getD ((npUnique labels).indexOf cur) 0

/-- The claim's premise that the adjacency matrix covers all observed label
pairs: it has at least one row per distinct label, each long enough to be
indexed by every distinct label's rank. -/
def adjCovers (labels : List ℤ) (adj : List (List ℚ)) : Prop :=
  (npUnique labels).length ≤ adj.length
    ∧ ∀ row ∈ adj, (npUnique labels).length ≤ row.length

instance (labels : List ℤ) (adj : List (List ℚ)) : Decidable (adjCovers labels adj) := by
  unfold adjCovers
  infer_instance

/-- The elementwise `np.divide(label_change_array, label_time_array)` array
of `speed`: entry 0 is `0/0 = nan`, entry `idx ≥ 1` divides the adjacency
weight of `(labels[idx-1], labels[idx])` by
`timestamps[idx-1] - timestamps[idx]`.  Stated over the consecutive pairs
of the (aligned) label and timestamp lists. -/
def speedDistances (labels : List ℤ) (timestamps : List ℚ) (adj : List (List ℚ)) :
    List NumVal :=
  match labels with
  | [] => []
  | _ :: _ =>
      npDivide 0 0 ::
        ((consecPairs labels).zip (consecPairs timestamps)).map
          (fun pq => npDivide (adjWeight labels adj pq.1.1 pq.1.2) (pq.2.1 - pq.2.2))

/-- Embedding of `Metrics.speed`:
`np.abs(np.nanmean(np.divide(label_change_array, label_time_array)))`. -/
def speed (labels : List ℤ) (timestamps : List ℚ) (adj : List (List ℚ)) : NumVal :=
  npAbs (nanmean (speedDistances labels timestamps adj))

/-- The signed per-step ratios the loop produces for `idx ≥ 1`: adjacency
weight of the consecutive label pair divided by
`timestamps[idx-1] - timestamps[idx]`. -/
def speedRatios (labels : List ℤ) (timestamps : List ℚ) (adj : List (List ℚ)) : List ℚ :=
  ((consecPairs labels).zip (consecPairs timestamps)).map
    (fun pq => adjWeight labels adj pq.1.1 pq.1.2 / (pq.2.1 - pq.2.2))

/-- Modelled from the spec text of claim C1 (the claim's own formula, for
comparison with the code): the average of the *absolute values* of the
per-step ratios, ignoring non-finite ratios. -/
def speedSpec (labels : List ℤ) (timestamps : List ℚ) (adj : List (List ℚ)) : NumVal :=
  let finites := (((consecPairs labels).zip (consecPairs timestamps)).map
    (fun pq => npDivide (adjWeight labels adj pq.1.1 pq.1.2)
      (pq.2.1 - pq.2.2))).filterMap NumVal.finPart
  if finites.length = 0 then .nan
  else .fin ((finites.map (fun q => |q|)).sum / (finites.length : ℚ))

/-! ### Claim C1 -/

/-- Counterexample to claim C1: for the window with labels `[0, 1, 0]`,
timestamps `[0, 1, 0]` and the covering adjacency matrix `[[0,1],[1,0]]`,
the two per-step ratios are `1/(0-1) = -1` and `1/(1-0) = 1`; the claim's
average of absolute values is 1, but the code returns
`abs(nanmean([-1, 1])) = 0` — the absolute value of the signed mean, not
the mean of absolute values. -/
theorem speed_abs_of_mean_counterexample :
    adjCovers [0, 1, 0] [[0, 1], [1, 0]]
      ∧ speed [0, 1, 0] [0, 1, 0] [[0, 1], [1, 0]] = .fin 0
      ∧ speedSpec [0, 1, 0] [0, 1, 0] [[0, 1], [1, 0]] = .fin 1
      ∧ NumVal.fin 0 ≠ NumVal.fin 1 := by
  refine ⟨by decide, ?_, ?_, by decide⟩
  · show npAbs (nanmean (speedDistances [0, 1, 0] [0, 1, 0] [[0, 1], [1, 0]])) = .fin 0
    have h1 : speedDistances [0, 1, 0] [0, 1, 0] [[0, 1], [1, 0]]
        = [.nan, .fin (-1), .fin 1] := by
      have hu : npUnique [0, 1, 0] = [0, 1] := by decide
      simp [speedDistances, consecPairs, adjWeight, hu, npDivide]
    rw [h1]
    rw [show ([.nan, .fin (-1), .fin 1] : List NumVal)
        = .nan :: ([(-1 : ℚ), 1].map NumVal.fin) from rfl]
    rw [nanmean_cons_nan, nanmean_map_fin [(-1 : ℚ), 1] (by simp)]
    norm_num [npAbs]
  · have hu : npUnique [0, 1, 0] = [0, 1] := by decide
    simp [speedSpec, consecPairs, adjWeight, hu, npDivide, NumVal.finPart]

/-- Claim C1 amended: under the claim's premises (aligned labels and
timestamps, a covering adjacency matrix) and when no consecutive timestamps
coincide (so no ratio is infinite — infinities would *not* be ignored by
`np.nanmean`), `speed` returns the absolute value of the *average of the
signed ratios* (weight of the consecutive label pair divided by
`timestamps[idx-1] - timestamps[idx]`), the leading `0/0 = nan` placeholder
entry being the only ignored value — not the average of the absolute values
of the ratios. -/
theorem speed_eq_abs_average_of_ratios (labels : List ℤ) (timestamps : List ℚ)
    (adj : List (List ℚ)) (hlen : timestamps.length = labels.length)
    (h2 : 2 ≤ labels.length) (hcov : adjCovers labels adj)
    (hts : ∀ p ∈ consecPairs timestamps, p.1 ≠ p.2) :
    speed labels timestamps adj
      = .fin |(speedRatios labels timestamps adj).sum
          / ((speedRatios labels timestamps adj).length : ℚ)| := by
  obtain ⟨a, rest, rfl⟩ : ∃ a rest, labels = a :: rest := by
    cases labels with
    | nil => simp at h2
    | cons a rest => exact ⟨a, rest, rfl⟩
  have hdec : speedDistances (a :: rest) timestamps adj
      = .nan :: (speedRatios (a :: rest) timestamps adj).map NumVal.fin := by
    rw [speedDistances, speedRatios, List.map_map]
    congr 1
    refine List.map_congr_left ?_
    intro pq hpq
    have hmem : pq.2 ∈ consecPairs timestamps := (List.of_mem_zip hpq).2
    have hne : pq.2.1 - pq.2.2 ≠ 0 := sub_ne_zero_of_ne (hts pq.2 hmem)
    simp [npDivide, hne, Function.comp]
  have hlenr : (speedRatios (a :: rest) timestamps adj).length ≠ 0 := by
    have hz : (consecPairs (a :: rest)).length = (a :: rest).length - 1 := by
      simp [consecPairs]
    have hzt : (consecPairs timestamps).length = timestamps.length - 1 := by
      simp [consecPairs]
    simp only [speedRatios, List.length_map, List.length_zip, hz, hzt, hlen]
    omega
  have hner : speedRatios (a :: rest) timestamps adj ≠ [] :=
    fun h => hlenr (by simp [h])
  rw [speed, hdec, nanmean_cons_nan, nanmean_map_fin _ hner]
  rfl

/-- Witness for the amended C1: labels `[0, 1]`, timestamps `[0, 2]` and
adjacency `[[0,1],[1,0]]` give the single ratio `1/(0-2) = -1/2`, whose
absolute average is `1/2`. -/
theorem speed_eq_abs_average_witness :
    speed [0, 1] [0, 2] [[0, 1], [1, 0]]
      = .fin |(speedRatios [0, 1] [0, 2] [[0, 1], [1, 0]]).sum
          / ((speedRatios [0, 1] [0, 2] [[0, 1], [1, 0]]).length : ℚ)| := by
  refine speed_eq_abs_average_of_ratios [0, 1] [0, 2] [[0, 1], [1, 0]] rfl
    (by norm_num) (by decide) ?_
  intro p hp
  have : p = ((0 : ℚ), (2 : ℚ)) := by
    simpa [consecPairs] using hp
  rw [this]
  norm_num

/-! ### `Metrics.average_time_between_labels` (metrics.py lines 100-146)

The function first recomputes the sampling-frequency estimate inline
(identical code to `establish_sampling_frequency`, including both
`ZeroDivisionError` paths), then loops `idx_outer` over
`range(len(unique_lab))` — but reads the label to analyse from the *original*
label array, `labels_[idx_outer]`, not from `unique_lab[idx_outer]`.  For
each such label it collects the timestamps of its occurrences, takes
`np.diff`, optionally deletes the gaps `np.isclose` to the nominal sampling
interval `1/sampling_frequency` (which equals the filtered-delta mean), and
averages what is left (0 when nothing is left). -/

/-- `np.isclose` with its default tolerances
(`|a - b| <= atol + rtol*|b|`, `rtol = 1e-5`, `atol = 1e-8`). -/
def npIsClose (a b : ℚ) : Bool :=
  decide (|a - b| ≤ 1 / 100000000 + (1 / 100000) * |b|)

/-- Embedding of `Metrics.average_time_between_labels` (faithful to the
source, including the `labels_[idx_outer]` read).  `none` models the
`ZeroDivisionError` raised while recomputing the sampling frequency. -/
def average_time_between_labels (labels : List ℤ) (timestamps : List ℚ)
    (normalise : Bool) : Option (List ℚ) :=
  if timestamps.length = 0 then none
  else
    let meanDelta := smallDeltaSum timestamps / (timestamps.length : ℚ)
    if meanDelta = 0 then none
    else
      some ((List.range (npUnique labels).length).map (fun io =>
        let lab := labels.getD io 0
        let occ := ((labels.zip timestamps).filter (fun p => p.1 == lab)).map Prod.snd
        let gaps0 := diffs occ
        let gaps := if normalise then gaps0.filter (fun g => !npIsClose g meanDelta)
          else gaps0
        if gaps.length = 0 then 0 else gaps.sum / (gaps.length : ℚ)))

/-! ### Claim C2 -/

/-- Claim C2 evaluated at the failing input of the code bug: for labels
`[1, 1, 2]` with timestamps `[0, 1, 2]` and `normalise=True`, the function
returns one entry per distinct label as claimed — but *both* entries are
computed for the label `labels_[idx_outer]` (which is 1 for both outer
indices), so the output is `[1, 1]`.  The claim requires the second entry,
belonging to the distinct label 2 with its single occurrence, to be 0. -/
theorem average_time_between_labels_bug_eval :
    average_time_between_labels [1, 1, 2] [0, 1, 2] true = some [1, 1]
      ∧ npUnique [1, 1, 2] = [1, 2]
      ∧ ([1, 1, 2] : List ℤ).count 2 = 1
      ∧ some [1, 1] ≠ some [(1 : ℚ), 0] := by
  have hmean : smallDeltaSum [0, 1, 2] / (([0, 1, 2] : List ℚ).length : ℚ) = 2 / 3 := by
    norm_num [smallDeltaSum, diffs]
  have hclose : npIsClose 1 (2 / 3) = false := by
    rw [npIsClose, decide_eq_false_iff_not]
    rw [show |(1 : ℚ) - 2 / 3| = 1 / 3 by norm_num]
    rw [show |(2 : ℚ) / 3| = 2 / 3 by norm_num]
    norm_num
  refine ⟨?_, by decide, by decide, by simp⟩
  rw [average_time_between_labels]
  rw [if_neg (by norm_num)]
  simp only [hmean]
  rw [if_neg (by norm_num)]
  have hu : (npUnique [1, 1, 2]).length = 2 := by decide
  rw [hu]
  rw [show List.range 2 = [0, 1] from by decide]
  simp only [List.map_cons, List.map_nil]
  norm_num [List.zip, List.zipWith, diffs, hclose]

/-! ### `Transforms.spec_entropy` (transforms.py lines 104-126)

The function is embedded from the point where the magnitude spectrum
`F = abs(np.fft.fft(x))` is available: the FFT and complex modulus are
external `numpy` calls producing the non-negative magnitude list the claim
quantifies over.  The natural logarithm (`np.log`, transcendental) is a
function parameter `rlog`, so the embedding states exactly *which* values
the code feeds to the logarithm.  Python's `min`/`max` of a non-empty
sequence are `listMin`/`listMax`; `min()` of an empty sequence raises
`ValueError`, modelled by `none`. -/

/-- Python `min` of a list (pattern only used on non-empty lists). -/
def listMin : List ℚ → ℚ
  | [] => 0
  | [a] => a
  | a :: b :: rest => min a (listMin (b :: rest))

/-- Python `max` of a list (pattern only used on non-empty lists). -/
def listMax : List ℚ → ℚ
  | [] => 0
  | [a] => a
  | a :: b :: rest => max a (listMax (b :: rest))

/-- The normalized spectrum `nf = F / sumf`, where `sumf = sum(F)` is
replaced by 1 when the magnitudes sum to 0. -/
def normSpec (F : List ℚ) : List ℚ :=
  F.map (fun a => a / (if F.sum = 0 then 1 else F.sum))

/-- The entropy accumulation `-1 * sum(nf * log(nf + eps))`. -/
def entropySum (rlog : ℚ → ℚ) (nf : List ℚ) (eps : ℚ) : ℚ :=
  -((nf.map (fun p => p * rlog (p + eps))).sum)

/-- `min(m for m in nf if m > 0)`: the smallest strictly-positive entry. -/
def posMin (l : List ℚ) : ℚ := listMin (l.filter (fun a => decide (0 < a)))

/-- Embedding of `Transforms.spec_entropy` downstream of the FFT: `none`
models the `ValueError` raised by Python `min` on an empty sequence (empty
window, or positive-generator empty when the guard is passed). -/
def spec_entropy_mags (rlog : ℚ → ℚ) (F : List ℚ) : Option ℚ :=
  if F.length = 0 then none
  else if listMin (normSpec F) = listMax (normSpec F) ∨ listMin (normSpec F) = 0 then
    some (entropySum rlog (normSpec F) 1)
  else if ((normSpec F).filter (fun a => decide (0 < a))).length = 0 then none
  else some (entropySum rlog (normSpec F) (posMin (normSpec F)))

/-- Modelled from the spec text of claim C5 (the claim's own formula, for
comparison with the code): `-Σ p·log(p + ε)` over the normalized
magnitudes with `ε` *always* the smallest strictly-positive normalized
magnitude. -/
def specEntropySpec (rlog : ℚ → ℚ) (F : List ℚ) : ℚ :=
  entropySum rlog (normSpec F) (posMin (normSpec F))

/-- Python `min` of a non-empty list is an element of the list. -/
theorem listMin_mem : ∀ l : List ℚ, l ≠ [] → listMin l ∈ l
  | [a], _ => by simp [listMin]
  | a :: b :: rest, _ => by
      rw [listMin]
      rcases min_choice a (listMin (b :: rest)) with h | h
      · rw [h]; exact List.mem_cons_self _ _
      · rw [h]
        exact List.mem_cons_of_mem _ (listMin_mem (b :: rest) (by simp))

/-! ### Claim C5 -/

/-- Counterexample to claim C5: the magnitude spectrum `[0, 2, 0, 2]`
(exactly the spectrum of the window `[1, 0, -1, 0]`) is neither flat nor
all-zero, yet the code uses `ε = 1`, not the smallest strictly-positive
normalized magnitude `1/2`: the guard `min(nf) != 0` fails because a zero
magnitude is present.  With the logarithm instantiated to the identity the
code computes `-3/2` where the claim's formula gives `-1`. -/
theorem spec_entropy_eps_counterexample :
    listMin (normSpec [0, 2, 0, 2]) ≠ listMax (normSpec [0, 2, 0, 2])
      ∧ ¬(∀ a ∈ ([0, 2, 0, 2] : List ℚ), a = 0)
      ∧ posMin (normSpec [0, 2, 0, 2]) = 1 / 2
      ∧ spec_entropy_mags id [0, 2, 0, 2] = some (-(3 / 2))
      ∧ specEntropySpec id [0, 2, 0, 2] = -1
      ∧ spec_entropy_mags id [0, 2, 0, 2] ≠ some (specEntropySpec id [0, 2, 0, 2]) := by
  have hns : normSpec [0, 2, 0, 2] = [0, 1 / 2, 0, 1 / 2] := by
    norm_num [normSpec]
  have hmin : listMin (normSpec [0, 2, 0, 2]) = 0 := by
    rw [hns]
    norm_num [listMin, min_def]
  have hmax : listMax (normSpec [0, 2, 0, 2]) = 1 / 2 := by
    rw [hns]
    norm_num [listMax, max_def]
  have hposmin : posMin (normSpec [0, 2, 0, 2]) = 1 / 2 := by
    rw [hns, posMin]
    rw [show ([0, 1 / 2, 0, 1 / 2] : List ℚ).filter (fun a => decide (0 < a))
        = [1 / 2, 1 / 2] from by norm_num [List.filter]]
    norm_num [listMin, min_def]
  have hcode : spec_entropy_mags id [0, 2, 0, 2] = some (-(3 / 2)) := by
    rw [spec_entropy_mags, if_neg (by norm_num), if_pos (Or.inr hmin), hns]
    norm_num [entropySum]
  have hspec : specEntropySpec id [0, 2, 0, 2] = -1 := by
    rw [specEntropySpec, hposmin, hns]
    norm_num [entropySum]
  refine ⟨by rw [hmin, hmax]; norm_num, by norm_num, hposmin, hcode, hspec, ?_⟩
  rw [hcode, hspec]
  norm_num

/-- Claim C5 amended: the code computes `-Σ p·log(p + ε)` with `ε` the
smallest strictly-positive normalized magnitude only when the normalized
spectrum is non-flat *and contains no zero magnitude* (equivalently, every
normalized magnitude is strictly positive); a flat spectrum, an all-zero
spectrum, or any single zero magnitude makes the code fall back to
`ε = 1`. -/
theorem spec_entropy_matches_spec_on_positive (rlog : ℚ → ℚ) (F : List ℚ)
    (hne : F ≠ []) (hpos : ∀ a ∈ normSpec F, 0 < a)
    (hflat : listMin (normSpec F) ≠ listMax (normSpec F)) :
    spec_entropy_mags rlog F = some (specEntropySpec rlog F) := by
  have hlen : ¬F.length = 0 := fun h => hne (List.length_eq_zero.mp h)
  have hnfne : normSpec F ≠ [] := by
    simp only [normSpec, ne_eq, List.map_eq_nil_iff]
    exact hne
  have hmin0 : listMin (normSpec F) ≠ 0 :=
    ne_of_gt (hpos _ (listMin_mem _ hnfne))
  have hfilter : (normSpec F).filter (fun a => decide (0 < a)) = normSpec F :=
    List.filter_eq_self.mpr (fun a ha => by simpa using hpos a ha)
  have hflen : ¬((normSpec F).filter (fun a => decide (0 < a))).length = 0 := by
    rw [hfilter]
    exact fun h => hnfne (List.length_eq_zero.mp h)
  rw [spec_entropy_mags, if_neg hlen, if_neg (by push_neg; exact ⟨hflat, hmin0⟩),
    if_neg hflen]
  rfl

/-- Witness for the amended C5 on the magnitude spectrum `[1, 2, 1, 2]`
with the identity in place of the logarithm. -/
theorem spec_entropy_matches_witness :
    spec_entropy_mags id [1, 2, 1, 2] = some (specEntropySpec id [1, 2, 1, 2]) := by
  have hns : normSpec [1, 2, 1, 2] = [1 / 6, 1 / 3, 1 / 6, 1 / 3] := by
    norm_num [normSpec]
  refine spec_entropy_matches_spec_on_positive id [1, 2, 1, 2] (by simp) ?_ ?_
  · rw [hns]
    intro a ha
    fin_cases ha <;> norm_num
  · rw [hns]
    norm_num [listMin, listMax, min_def, max_def]

end DigiHealth
